import Mathlib

/-!
Verification of the pattern-search core of the Personal-Financial-Management
repository: window extraction and normalization, batched index construction
(src/ai/05_build_index.py) and the query path (src/ai/06_search_pattern.py).

Modelling conventions: prices, timestamps and returns are exact numbers
(`ℚ`, `ℤ`); the z-score normalization, which involves a square root, lives in
`ℝ`.  Python list/array slicing is translated to `List.take`/`List.drop`,
polars dataframes to lists of rows, and the faiss flat index (an external
library, not part of the repository) is modelled from the spec's §4.3
contract.  Load failures of a batch are modelled by a predicate on the batch
index.
-/

set_option maxHeartbeats 1000000

/-- Configuration constant WINDOW_SIZE (build_index line 10, search_pattern line 10). -/
def WINDOW_SIZE : ℕ := 30

/-- Configuration constant PREDICT_HORIZON (build_index line 11). -/
def PREDICT_HORIZON : ℕ := 5

/-- Configuration constant BATCH_SIZE (build_index line 12). -/
def BATCH_SIZE : ℕ := 500

/-- Configuration constant TOP_K (search_pattern line 11). -/
def TOP_K : ℕ := 9

/-- One input row of dataset_ml_ready.parquet: (symbol, timestamp, close). -/
structure Row where
  symbol : String
  ts : ℤ
  close : ℚ
deriving DecidableEq

/-- One row of the pattern_metadata table: (symbol, date, future_return)
(build_index lines 56-60). -/
structure MetaRow where
  symbol : String
  date : ℤ
  ret : ℚ
deriving DecidableEq

/-- Fuel-driven worker for `chunksOf`; `fuel = l.length` is always enough when
`0 < B` because every step consumes at least one element. -/
def chunksGo (B : ℕ) : ℕ → List α → List (List α)
  | _, [] => []
  | 0, _ => []
  | fuel + 1, l => l.take B :: chunksGo B fuel (l.drop B)

/-- Python chunking `[all_symbols[i:i+B] for i in range(0, len, B)]`
(build_index line 43). -/
def chunksOf (B : ℕ) (l : List α) : List (List α) :=
  if B = 0 then [] else chunksGo B l.length l

/-- Byte-wise character comparison. -/
def charLtB (a b : Char) : Bool := a.toNat.blt b.toNat

/-- Lexicographic comparison of character lists (alphabetical file/string order). -/
def lexLtB : List Char → List Char → Bool
  | [], [] => false
  | [], _ :: _ => true
  | _ :: _, [] => false
  | a :: as, b :: bs =>
    if charLtB a b then true else if charLtB b a then false else lexLtB as bs

/-- Lexicographic strict order on strings. -/
def strLtB (a b : String) : Bool := lexLtB a.data b.data

/-- Lexicographic weak order on strings. -/
def strLeB (a b : String) : Bool := !(strLtB b a)

/-- The polars sort key of `df_batch.collect().sort(["symbol", "ts"])`
(build_index line 49): ascending by symbol, then by timestamp. -/
def rowLeB (a b : Row) : Bool :=
  strLtB a.symbol b.symbol || (a.symbol == b.symbol && decide (a.ts ≤ b.ts))

/-- `rowLeB` as a proposition, for use with `List.insertionSort`. -/
def rowLE (a b : Row) : Prop := rowLeB a b = true

instance : DecidableRel rowLE := fun a b => inferInstanceAs (Decidable (rowLeB a b = true))

/-- Sort of one batch dataframe by (symbol, ts) (build_index line 49). -/
def sortRows (l : List Row) : List Row := List.insertionSort rowLE l

/-- The (symbol, ts) key of a row; the upstream collaborator guarantees these
keys are pairwise distinct (strictly increasing timestamps per symbol). -/
def rowKey (r : Row) : String × ℤ := (r.symbol, r.ts)

/-- numpy `sliding_window_view(l, window_shape := W)` (build_index line 73). -/
def slidingWindows (W : ℕ) (l : List ℚ) : List (List ℚ) :=
  (List.range (l.length + 1 - W)).map (fun i => (l.drop i).take W)

/-- `min_len = min(len(windows), len(future_prices))` (build_index line 78),
where `windows = sliding_window_view(closes[:-H], W)` and
`future_prices = closes[W+H-1:]`. -/
def minLen (W H : ℕ) (closes : List ℚ) : ℕ :=
  min (slidingWindows W (closes.take (closes.length - H))).length
    (closes.drop (W + H - 1)).length

/-- Raw windows of one symbol's close series (build_index lines 73, 79):
`sliding_window_view(closes[:-H], W)` truncated to `min_len`. -/
def symWindows (W H : ℕ) (closes : List ℚ) : List (List ℚ) :=
  (slidingWindows W (closes.take (closes.length - H))).take (minLen W H closes)

/-- Forward outcomes of one symbol (build_index lines 75-80):
`future_ret = closes[W+H-1:][:min_len] / closes[W-1:-H][:min_len] - 1`. -/
def symRets (W H : ℕ) (closes : List ℚ) : List ℚ :=
  List.zipWith (fun f c => f / c - 1)
    ((closes.drop (W + H - 1)).take (minLen W H closes))
    (((closes.take (closes.length - H)).drop (W - 1)).take (minLen W H closes))

/-- Window-end dates of one symbol (build_index line 81):
`dates[W-1 : W-1+min_len]`. -/
def symDates (W H : ℕ) (closes : List ℚ) (dates : List ℤ) : List ℤ :=
  (dates.drop (W - 1)).take (minLen W H closes)

/-- The metadata rows contributed by one symbol (build_index lines 92-94): the
positional zip of the three column lists extended into `batch_metadata`. -/
def symMetaRows (sym : String) (W H : ℕ) (closes : List ℚ) (dates : List ℤ) : List MetaRow :=
  List.zipWith (fun d r => MetaRow.mk sym d r) (symDates W H closes dates) (symRets W H closes)

/-- Per-symbol body of the batch loop (build_index lines 64-94).  A symbol
with fewer than W+H closes is skipped (`continue`, line 68-69); otherwise its
metadata rows are paired positionally with its raw windows. -/
def groupExtract (W H : ℕ) (g : List Row) : Option (List (MetaRow × List ℚ)) :=
  match g with
  | [] => none
  | r :: _ =>
    let closes := g.map Row.close
    let dates := g.map Row.ts
    if closes.length < W + H then none
    else some ((symMetaRows r.symbol W H closes dates).zip (symWindows W H closes))

/-- Accumulated build state: `pairs` are the (metadata row, raw window) records
in index append order, `shards` the written part files (chunk index paired with
the shard's metadata rows) in creation order, `total` is `total_vectors`. -/
structure BuildOut where
  pairs : List (MetaRow × List ℚ)
  shards : List (ℕ × List MetaRow)
  total : ℕ
deriving DecidableEq

/-- Initial build state (build_index lines 20, 40). -/
def emptyBuild : BuildOut := ⟨[], [], 0⟩

/-- One loop iteration over a successfully loaded, sorted batch dataframe
(build_index lines 54-117): partition by symbol (contiguous runs of the sorted
frame), extract each qualifying symbol, and if any vectors were produced append
them to the index and write the batch's metadata shard. -/
def stepBatch (W H : ℕ) (acc : BuildOut) (b : ℕ × List Row) : BuildOut :=
  let perSym := (b.2.splitBy (fun x y => x.symbol == y.symbol)).filterMap (groupExtract W H)
  if perSym.isEmpty then acc
  else
    { pairs := acc.pairs ++ perSym.flatten
      shards := acc.shards ++ [(b.1, (perSym.flatten).map Prod.fst)]
      total := acc.total + (perSym.flatten).length }

/-- The batch loop (build_index lines 45-121); a batch whose load fails is
skipped in full (lines 50-52). -/
def buildSteps (W H : ℕ) (fails : ℕ → Bool) (batches : List (ℕ × List Row)) : BuildOut :=
  batches.foldl (fun acc b => if fails b.1 then acc else stepBatch W H acc b) emptyBuild

/-- The batch dataframe: the source rows restricted to the batch's symbols and
sorted by (symbol, ts) (build_index line 49). -/
def batchDf (rows : List Row) (chunk : List String) : List Row :=
  sortRows (rows.filter (fun r => chunk.contains r.symbol))

/-- The whole build (build_index lines 16-121): chunk the symbol universe,
load/sort each chunk's rows, and run the batch loop.  `symOrder` is the symbol
list produced by `lf.select("symbol").unique()` (line 25), whose order polars
does not specify; `fails` marks the batches whose load raises. -/
def buildOut (W H B : ℕ) (fails : ℕ → Bool) (rows : List Row) (symOrder : List String) :
    BuildOut :=
  buildSteps W H fails ((chunksOf B symOrder).enum.map (fun p => (p.1, batchDf rows p.2)))

/-- Shard file name `f"pattern_metadata_part_{chunk_idx}.parquet"`
(build_index line 114). -/
def partName (idx : ℕ) : String := "pattern_metadata_part_" ++ toString idx ++ ".parquet"

/-- The final metadata merge (build_index line 133):
`pl.read_parquet("pattern_metadata_part_*.parquet")` concatenates the shard
files in the glob expansion order, which is alphabetical by file name. -/
def mergeShards (shards : List (ℕ × List MetaRow)) : List MetaRow :=
  ((List.insertionSort (fun a b => strLeB (partName a.1) (partName b.1) = true) shards).map
    Prod.snd).flatten

/-- The persisted metadata artifact (build_index lines 127-143): written only
when at least one shard part file exists; `none` models the absent file. -/
def metaFileOf (out : BuildOut) : Option (List MetaRow) :=
  if out.shards.isEmpty then none else some (mergeShards out.shards)

/-- Modelled from the spec: the faiss flat index (faiss is an external
dependency whose source is not in the repository).  Per §4.3 the index is an
append-only, row-ordered, dense container of vectors of dimension `dim`. -/
structure FaissIndex (α : Type) where
  dim : ℕ
  vecs : List (List α)

/-- Modelled from the spec: the persisted index artifact, a file whose header
records count and dimension followed by the exact stored vectors (§4.3, §6). -/
structure IndexFile (α : Type) where
  count : ℕ
  dim : ℕ
  data : List (List α)

/-- Modelled from the spec: `faiss.write_index` persists the header and the
exact stored vectors (build_index line 125). -/
def writeIndex (idx : FaissIndex α) : IndexFile α := ⟨idx.vecs.length, idx.dim, idx.vecs⟩

/-- Modelled from the spec: `faiss.read_index` restores the stored vectors
exactly (search_pattern line 22). -/
def readIndex (f : IndexFile α) : FaissIndex α := ⟨f.dim, f.data⟩

/-- Modelled from the spec: `index.reconstruct(row_id)` returns the exact
vector stored at that row id (search_pattern line 81). -/
def reconstruct (idx : FaissIndex α) (i : ℕ) : Option (List α) := idx.vecs[i]?

/-- Squared Euclidean distance, the metric of `faiss.IndexFlatL2`
(build_index line 20). -/
def sqDist [LinearOrderedField α] (q v : List α) : α :=
  (List.zipWith (fun a b => (a - b) * (a - b)) q v).sum

/-- Result order of an exact flat-index search: ascending squared distance,
ties broken by lower row id (spec §4.3). -/
def rankLE [LinearOrderedField α] (a b : ℤ × α) : Prop :=
  a.2 < b.2 ∨ (a.2 = b.2 ∧ a.1 ≤ b.1)

instance [LinearOrderedField α] : DecidableRel (rankLE (α := α)) := fun a b =>
  inferInstanceAs (Decidable (_ ∨ _))

/-- Modelled from the spec: all rows of the flat index ranked for a query —
every stored vector paired with its squared distance to the query, ordered by
ascending distance with ties broken by lower row id (§4.3). -/
def rankedPairs [LinearOrderedField α] (vecs : List (List α)) (q : List α) : List (ℤ × α) :=
  List.insertionSort rankLE ((vecs.enum).map (fun p => ((p.1 : ℤ), sqDist q p.2)))

/-- Modelled from the spec: `index.search(q, k)` returns the `k` best rows; when
fewer than `k` rows are stored, faiss pads the id array with `-1`
(search_pattern line 55). -/
def faissSearch [LinearOrderedField α] (vecs : List (List α)) (q : List α) (k : ℕ) :
    List (ℤ × α) :=
  let res := (rankedPairs vecs q).take k
  res ++ List.replicate (k - res.length) (-1, 0)

/-- The fixed epsilon of the z-score normalization, `1e-6`
(build_index line 86, search_pattern line 48). -/
noncomputable def EPS : ℝ := 1 / 1000000

/-- `np.mean` of a window. -/
noncomputable def listMean (l : List ℝ) : ℝ := l.sum / l.length

/-- `np.std` of a window: population standard deviation (ddof = 0). -/
noncomputable def listStd (l : List ℝ) : ℝ :=
  Real.sqrt ((l.map (fun x => (x - listMean l) ^ 2)).sum / l.length)

/-- Build-side z-score normalization of one raw window
(build_index lines 84-86): `(w - mean(w)) / (std(w) + 1e-6)`. -/
noncomputable def zNormalize (w : List ℝ) : List ℝ :=
  w.map (fun x => (x - listMean w) / (listStd w + EPS))

/-- Query-side z-score normalization of the live window
(search_pattern lines 46-48): `(q - mean(q)) / (std(q) + 1e-6)`. -/
noncomputable def zNormalizeQuery (q : List ℝ) : List ℝ :=
  q.map (fun x => (x - listMean q) / (listStd q + EPS))

/-- The vectors added to the faiss index, in append order: the code normalizes
each qualifying symbol's windows (line 86) and appends the concatenation
(lines 89, 98-99); elementwise this is `zNormalize` mapped over the raw
windows in record order. -/
noncomputable def builtVecs (out : BuildOut) : List (List ℝ) :=
  out.pairs.map (fun p => zNormalize (p.2.map (fun q => (q : ℝ))))

/-- The faiss index produced by a build: `faiss.IndexFlatL2(WINDOW_SIZE)`
filled by the batch loop (build_index lines 20, 99). -/
noncomputable def builtIndex (W : ℕ) (out : BuildOut) : FaissIndex ℝ := ⟨W, builtVecs out⟩

/-- The Python dict `{id_: i for i, id_ in enumerate(found_ids)}` read with
default 999 (search_pattern lines 63-65): later duplicates overwrite, so the
key of an id is its last position in `found_ids`. -/
def orderKey (ids : List ℤ) (x : ℤ) : ℕ :=
  match (ids.enum.filter (fun p => p.2 == x)).getLast? with
  | some p => p.1
  | none => 999

/-- `df_prices.filter(symbol == target).tail(WINDOW_SIZE)`
(search_pattern line 36). -/
def targetTail (rows : List Row) (target : String) (W : ℕ) : List Row :=
  let d := rows.filter (fun r => r.symbol == target)
  d.drop (d.length - W)

/-- Observable outcome of `search_pattern`: each early-exit branch of the
source is a distinct constructor; `ok` carries the ranked result rows and the
two aggregate statistics it prints. -/
inductive QueryOutcome where
  | indexNotBuilt
  | datasetMissing
  | insufficientHistory
  | zeroDivision
  | ok (results : List (ℤ × MetaRow)) (winRate avgRet : ℚ)
deriving DecidableEq

/-- The normalized query vector (search_pattern lines 43-51): the close column
of the target tail, z-scored with the query-side normalizer. -/
noncomputable def queryVecR (rows : List Row) (target : String) (W : ℕ) : List ℝ :=
  zNormalizeQuery ((targetTail rows target W).map (fun r => (r.close : ℝ)))

/-- `found_ids = I[0].tolist()` (search_pattern lines 55-56): the id column of
the faiss search result, including any `-1` padding. -/
noncomputable def foundIds (index : FaissIndex ℝ) (rows : List Row) (target : String)
    (W : ℕ) : List ℤ :=
  (faissSearch index.vecs (queryVecR rows target W) TOP_K).map Prod.fst

/-- The metadata table with its row index attached,
`pl.scan_parquet(META_FILE).with_row_index("row_id")` (search_pattern line 25). -/
def metaWithRowId (meta : List MetaRow) : List (ℤ × MetaRow) :=
  meta.enum.map (fun p => ((p.1 : ℤ), p.2))

/-- `df_results = lf_meta.filter(pl.col("row_id").is_in(found_ids)).collect()`
(search_pattern line 60). -/
noncomputable def dfResults (index : FaissIndex ℝ) (meta : List MetaRow) (rows : List Row)
    (target : String) (W : ℕ) : List (ℤ × MetaRow) :=
  (metaWithRowId meta).filter (fun p => (foundIds index rows target W).contains p.1)

/-- `results_list.sort(key = ...)` (search_pattern lines 63-65): the fetched
rows re-sorted into the search's ascending-distance order via `order_map`. -/
noncomputable def rankedResults (index : FaissIndex ℝ) (meta : List MetaRow) (rows : List Row)
    (target : String) (W : ℕ) : List (ℤ × MetaRow) :=
  List.insertionSort
    (fun a b => orderKey (foundIds index rows target W) a.1 ≤
      orderKey (foundIds index rows target W) b.1)
    (dfResults index meta rows target W)

/-- `returns_stats` (search_pattern lines 83-84): each matched row's
future return, as a percentage. -/
noncomputable def returnsStats (index : FaissIndex ℝ) (meta : List MetaRow) (rows : List Row)
    (target : String) (W : ℕ) : List ℚ :=
  (rankedResults index meta rows target W).map (fun p => p.2.ret * 100)

/-- The query path (search_pattern lines 13-117).  Missing index or metadata
file aborts before anything is loaded (lines 17-19); a missing dataset aborts
(lines 29-33); fewer than W closes for the target aborts (lines 38-40).
Otherwise the last W closes are normalized, the index is searched with TOP_K,
the metadata rows with matching row ids are fetched and re-sorted into search
order, and the win rate and average return are computed over them — the code
reports both as percentages (lines 108-109).  An empty result list would make
the Python code divide by zero at line 108, modelled by `zeroDivision`. -/
noncomputable def searchPattern (idxF : Option (FaissIndex ℝ)) (metaF : Option (List MetaRow))
    (dataset : Option (List Row)) (target : String) (W : ℕ) : QueryOutcome :=
  match idxF, metaF with
  | some index, some meta =>
    match dataset with
    | none => .datasetMissing
    | some rows =>
      if (targetTail rows target W).length < W then .insufficientHistory
      else if (returnsStats index meta rows target W).length = 0 then .zeroDivision
      else
        .ok (rankedResults index meta rows target W)
          ((((returnsStats index meta rows target W).filter
              (fun r => decide (0 < r))).length : ℚ) /
            ((returnsStats index meta rows target W).length : ℚ) * 100)
          ((returnsStats index meta rows target W).sum /
            ((returnsStats index meta rows target W).length : ℚ))
  | _, _ => .indexNotBuilt

/-- The number of windows one symbol's series contributes to the index. -/
def groupWindowCount (W H : ℕ) (g : List Row) : ℕ :=
  match groupExtract W H g with
  | none => 0
  | some l => l.length

/-- A valid output of `lf.select("symbol").unique()` (build_index line 25):
some duplicate-free enumeration of the symbols occurring in the source rows.
polars does not specify which order is produced. -/
def validSymOrder (rows : List Row) (symOrder : List String) : Prop :=
  symOrder.Nodup ∧ symOrder.Perm (rows.map Row.symbol).dedup

/-! ### Window extraction: lengths and contents -/

theorem length_slidingWindows (W : ℕ) (l : List ℚ) :
    (slidingWindows W l).length = l.length + 1 - W := by
  simp [slidingWindows]

theorem minLen_eq (W H : ℕ) (closes : List ℚ) (hW : 0 < W) (hH : 0 < H)
    (h : W + H ≤ closes.length) :
    minLen W H closes = closes.length + 1 - (W + H) := by
  unfold minLen
  rw [length_slidingWindows, List.length_take, List.length_drop, inf_eq_min,
    min_eq_left (show closes.length - H ≤ closes.length by omega), inf_eq_min,
    show closes.length - H + 1 - W = closes.length + 1 - (W + H) by omega,
    show closes.length - (W + H - 1) = closes.length + 1 - (W + H) by omega, min_self]

theorem symWindows_eq_slidingWindows (W H : ℕ) (closes : List ℚ)
    (hW : 0 < W) (hH : 0 < H) (h : W + H ≤ closes.length) :
    symWindows W H closes = slidingWindows W (closes.take (closes.length - H)) := by
  unfold symWindows
  refine List.take_of_length_le ?_
  rw [minLen_eq W H closes hW hH h, length_slidingWindows, List.length_take, inf_eq_min,
    min_eq_left (show closes.length - H ≤ closes.length by omega)]
  omega

theorem symWindows_length (W H : ℕ) (closes : List ℚ) (hW : 0 < W) (hH : 0 < H)
    (h : W + H ≤ closes.length) :
    (symWindows W H closes).length = closes.length + 1 - (W + H) := by
  rw [symWindows_eq_slidingWindows W H closes hW hH h, length_slidingWindows,
    List.length_take, inf_eq_min, min_eq_left (show closes.length - H ≤ closes.length by omega)]
  omega

theorem symWindows_getElem (W H : ℕ) (closes : List ℚ) (hW : 0 < W) (hH : 0 < H)
    (h : W + H ≤ closes.length)
    (i : ℕ) (hi : i + (W + H) ≤ closes.length) :
    (symWindows W H closes)[i]? = some ((closes.drop i).take W) := by
  rw [symWindows_eq_slidingWindows W H closes hW hH h]
  unfold slidingWindows
  rw [List.getElem?_map, List.getElem?_range ?_]
  · rw [Option.map_some']
    congr 1
    rw [List.drop_take, List.take_take, min_eq_left (by omega)]
  · rw [List.length_take, inf_eq_min, min_eq_left (show closes.length - H ≤ closes.length
      by omega)]
    omega

theorem symRets_length (W H : ℕ) (closes : List ℚ) (hW : 0 < W) (hH : 0 < H)
    (h : W + H ≤ closes.length) :
    (symRets W H closes).length = closes.length + 1 - (W + H) := by
  have e1 : ((closes.drop (W + H - 1)).take (minLen W H closes)).length =
      closes.length + 1 - (W + H) := by
    rw [List.length_take, List.length_drop, minLen_eq W H closes hW hH h, inf_eq_min,
      min_eq_left (by omega)]
  have e2 : (((closes.take (closes.length - H)).drop (W - 1)).take (minLen W H closes)).length =
      closes.length + 1 - (W + H) := by
    rw [List.length_take, List.length_drop, List.length_take, minLen_eq W H closes hW hH h,
      inf_eq_min, min_eq_left (show closes.length - H ≤ closes.length by omega), inf_eq_min,
      min_eq_left (by omega)]
  unfold symRets
  rw [List.length_zipWith, e1, e2, min_self]

theorem symDates_length (W H : ℕ) (closes : List ℚ) (dates : List ℤ)
    (hW : 0 < W) (hH : 0 < H)
    (h : W + H ≤ closes.length) (hd : closes.length ≤ dates.length) :
    (symDates W H closes dates).length = closes.length + 1 - (W + H) := by
  unfold symDates
  rw [List.length_take, List.length_drop, minLen_eq W H closes hW hH h, inf_eq_min,
    min_eq_left (by omega)]

theorem symMetaRows_length (sym : String) (W H : ℕ) (closes : List ℚ) (dates : List ℤ)
    (hW : 0 < W) (hH : 0 < H) (h : W + H ≤ closes.length) (hd : closes.length ≤ dates.length) :
    (symMetaRows sym W H closes dates).length = closes.length + 1 - (W + H) := by
  unfold symMetaRows
  rw [List.length_zipWith, symDates_length W H closes dates hW hH h hd,
    symRets_length W H closes hW hH h, min_self]

theorem symRets_getElem (W H : ℕ) (closes : List ℚ) (h : W + H ≤ closes.length)
    (hW : 0 < W) (hH : 0 < H) (i : ℕ) (hi : i + (W + H) ≤ closes.length) :
    (symRets W H closes)[i]? =
      some (closes.getD (i + W - 1 + H) 0 / closes.getD (i + W - 1) 0 - 1) := by
  have hlen : i < (symRets W H closes).length := by
    rw [symRets_length W H closes hW hH h]; omega
  rw [List.getElem?_eq_getElem hlen]
  unfold symRets at hlen ⊢
  rw [List.getElem_zipWith (h := hlen)]
  rw [List.getElem_take, List.getElem_take, List.getElem_drop, List.getElem_drop,
    List.getElem_take]
  rw [show i + W - 1 + H = W + H - 1 + i by omega, show i + W - 1 = W - 1 + i by omega]
  rw [List.getD_eq_getElem _ _ (by omega), List.getD_eq_getElem _ _ (by omega)]

theorem symDates_getElem (W H : ℕ) (closes : List ℚ) (dates : List ℤ)
    (h : W + H ≤ closes.length) (hd : closes.length ≤ dates.length)
    (hW : 0 < W) (hH : 0 < H) (i : ℕ) (hi : i + (W + H) ≤ closes.length) :
    (symDates W H closes dates)[i]? = some (dates.getD (i + W - 1) 0) := by
  have hlen : i < (symDates W H closes dates).length := by
    rw [symDates_length W H closes dates hW hH h hd]; omega
  rw [List.getElem?_eq_getElem hlen]
  unfold symDates at hlen ⊢
  rw [List.getElem_take, List.getElem_drop]
  rw [show i + W - 1 = W - 1 + i by omega]
  rw [List.getD_eq_getElem _ _ (by omega)]

theorem groupExtract_cons (W H : ℕ) (r : Row) (t : List Row) :
    groupExtract W H (r :: t) =
      if ((r :: t).map Row.close).length < W + H then none
      else some ((symMetaRows r.symbol W H ((r :: t).map Row.close)
        ((r :: t).map Row.ts)).zip (symWindows W H ((r :: t).map Row.close))) := rfl

theorem groupExtract_some_length (W H : ℕ) (hW : 0 < W) (hH : 0 < H) (g : List Row)
    (l : List (MetaRow × List ℚ)) (hl : groupExtract W H g = some l) :
    W + H ≤ g.length ∧ l.length = g.length + 1 - (W + H) := by
  cases g with
  | nil => simp [groupExtract] at hl
  | cons r t =>
    rw [groupExtract_cons] at hl
    by_cases hlt : ((r :: t).map Row.close).length < W + H
    · rw [if_pos hlt] at hl; exact absurd hl (by simp)
    · rw [if_neg hlt] at hl
      have hLc : ((r :: t).map Row.close).length = (r :: t).length := List.length_map _ _
      have hLd : ((r :: t).map Row.ts).length = (r :: t).length := List.length_map _ _
      have hle : W + H ≤ (r :: t).length := by omega
      refine ⟨hle, ?_⟩
      have hx := Option.some.inj hl
      rw [← hx, List.length_zip,
        symMetaRows_length r.symbol W H _ _ hW hH (by omega) (by omega),
        symWindows_length W H _ hW hH (by omega), hLc, min_self]

theorem groupWindowCount_some (W H : ℕ) (g : List Row) (l : List (MetaRow × List ℚ))
    (h : groupExtract W H g = some l) : groupWindowCount W H g = l.length := by
  unfold groupWindowCount; rw [h]

theorem groupWindowCount_none (W H : ℕ) (g : List Row)
    (h : groupExtract W H g = none) : groupWindowCount W H g = 0 := by
  unfold groupWindowCount; rw [h]

/-- C5: for every per-symbol series of length L, window extraction yields
exactly max(0, L − W − H + 1) windows — one for every offset i with
i + W − 1 + H < L; a series of exactly W+H points yields exactly one window,
one of W+H−1 points yields none, and a series shorter than W+H contributes the
empty extraction (the symbol is skipped), not an error. -/
theorem spec_c5 (W H : ℕ) (hW : 0 < W) (hH : 0 < H) (g : List Row) (hg : g ≠ []) :
    ((groupWindowCount W H g : ℤ) = max 0 ((g.length : ℤ) - W - H + 1)
      ∧ (g.length = W + H → groupWindowCount W H g = 1)
      ∧ (g.length = W + H - 1 → groupWindowCount W H g = 0)
      ∧ (g.length < W + H → groupExtract W H g = none))
    ∧ ∀ l, groupExtract W H g = some l → ∀ i, i + (W + H) ≤ g.length →
        (l.map Prod.snd)[i]? = some (((g.map Row.close).drop i).take W) := by
  cases g with
  | nil => exact absurd rfl hg
  | cons r t =>
    have hLc : ((r :: t).map Row.close).length = (r :: t).length := List.length_map _ _
    have hnone : (r :: t).length < W + H → groupExtract W H (r :: t) = none := by
      intro hlt
      rw [groupExtract_cons, if_pos (by omega)]
    have hcount : W + H ≤ (r :: t).length →
        groupWindowCount W H (r :: t) = (r :: t).length + 1 - (W + H) := by
      intro hle
      have hsome : groupExtract W H (r :: t) = some ((symMetaRows r.symbol W H
          ((r :: t).map Row.close) ((r :: t).map Row.ts)).zip
          (symWindows W H ((r :: t).map Row.close))) := by
        rw [groupExtract_cons, if_neg (by omega)]
      rw [groupWindowCount_some W H _ _ hsome]
      exact (groupExtract_some_length W H hW hH _ _ hsome).2
    constructor
    · by_cases hle : W + H ≤ (r :: t).length
      · have hc := hcount hle
        refine ⟨?_, ?_, ?_, ?_⟩
        · rw [hc]; omega
        · intro he; rw [hc, he]; omega
        · intro he; omega
        · intro hlt; omega
      · push_neg at hle
        have hz : groupWindowCount W H (r :: t) = 0 :=
          groupWindowCount_none W H _ (hnone hle)
        refine ⟨?_, ?_, fun _ => hz, fun _ => hnone hle⟩
        · rw [hz]; omega
        · intro he; omega
    · intro l hl i hi
      obtain ⟨hle, hlen⟩ := groupExtract_some_length W H hW hH (r :: t) l hl
      rw [groupExtract_cons, if_neg (by omega)] at hl
      have hl' := Option.some.inj hl
      subst hl'
      have hil : i < ((symMetaRows r.symbol W H ((r :: t).map Row.close)
          ((r :: t).map Row.ts)).zip (symWindows W H ((r :: t).map Row.close))).length := by
        omega
      rw [List.getElem?_eq_getElem (by rw [List.length_map]; exact hil), List.getElem_map]
      refine congrArg some ?_
      have hswb : i < (symWindows W H ((r :: t).map Row.close)).length := by
        rw [symWindows_length W H _ hW hH (by omega)]; omega
      have hsw := symWindows_getElem W H ((r :: t).map Row.close) hW hH (by omega) i (by omega)
      rw [List.getElem?_eq_getElem hswb] at hsw
      rw [List.getElem_zip]
      exact Option.some.inj hsw

/-- C7: the stored outcome for the window at offset i — ending at series index
end = i + W − 1 — equals the simple percentage return
close[end + H] / close[end] − 1, the paired date is the window's end
timestamp, and close[end] is the last close inside that window (the query path
consumes these stored outcomes unchanged, so one convention is used
throughout). -/
theorem spec_c7 (W H : ℕ) (hW : 0 < W) (hH : 0 < H) (sym : String) (closes : List ℚ)
    (dates : List ℤ) (h : W + H ≤ closes.length) (hd : dates.length = closes.length)
    (i : ℕ) (hi : i + (W + H) ≤ closes.length) :
    (symMetaRows sym W H closes dates)[i]? =
      some (MetaRow.mk sym (dates.getD (i + W - 1) 0)
        (closes.getD (i + W - 1 + H) 0 / closes.getD (i + W - 1) 0 - 1))
    ∧ ((symWindows W H closes).getD i []).getLast? = some (closes.getD (i + W - 1) 0) := by
  constructor
  · have hlen : i < (symMetaRows sym W H closes dates).length := by
      rw [symMetaRows_length sym W H closes dates hW hH h (by omega)]; omega
    rw [List.getElem?_eq_getElem hlen]
    unfold symMetaRows at hlen ⊢
    rw [List.getElem_zipWith (h := hlen)]
    have hdd : (symDates W H closes dates)[i]? = some (dates.getD (i + W - 1) 0) :=
      symDates_getElem W H closes dates h (by omega) hW hH i hi
    have hdb : i < (symDates W H closes dates).length := by
      rw [symDates_length W H closes dates hW hH h (by omega)]; omega
    rw [List.getElem?_eq_getElem hdb] at hdd
    have hrr : (symRets W H closes)[i]? =
        some (closes.getD (i + W - 1 + H) 0 / closes.getD (i + W - 1) 0 - 1) :=
      symRets_getElem W H closes h hW hH i hi
    have hrb : i < (symRets W H closes).length := by
      rw [symRets_length W H closes hW hH h]; omega
    rw [List.getElem?_eq_getElem hrb] at hrr
    rw [Option.some.inj hdd, Option.some.inj hrr]
  · have hwb : i < (symWindows W H closes).length := by
      rw [symWindows_length W H closes hW hH h]; omega
    have hw : (symWindows W H closes)[i]? = some ((closes.drop i).take W) :=
      symWindows_getElem W H closes hW hH h i hi
    rw [List.getElem?_eq_getElem hwb] at hw
    rw [List.getD_eq_getElem _ _ hwb, Option.some.inj hw]
    have hwl : ((closes.drop i).take W).length = W := by
      rw [List.length_take, List.length_drop, inf_eq_min, min_eq_left (by omega)]
    rw [List.getLast?_eq_getElem?, hwl]
    have hWb : W - 1 < ((closes.drop i).take W).length := by rw [hwl]; omega
    rw [List.getElem?_eq_getElem hWb, List.getElem_take, List.getElem_drop]
    rw [show i + W - 1 = i + (W - 1) by omega]
    rw [List.getD_eq_getElem _ _ (by omega)]

/-- C6: the stored shape vector is (raw − μ)/(σ + ε) componentwise with
population statistics and the fixed ε; the denominator σ + ε is strictly
positive (so the normalization is well defined, never NaN/Inf — in particular
a constant-price window maps to the zero vector); and the query path's
normalization is the very same function with the same ε. -/
theorem spec_c6 (w : List ℝ) (hw : 0 < w.length) :
    0 < listStd w + EPS
    ∧ (∀ i : ℕ, (zNormalize w)[i]? =
        Option.map (fun x => (x - listMean w) / (listStd w + EPS)) w[i]?)
    ∧ (∀ c : ℝ, (∀ x ∈ w, x = c) → zNormalize w = List.replicate w.length 0)
    ∧ zNormalizeQuery = zNormalize := by
  refine ⟨?_, ?_, ?_, ?_⟩
  · have h1 : 0 ≤ listStd w := Real.sqrt_nonneg _
    have h2 : (0 : ℝ) < EPS := by norm_num [EPS]
    linarith
  · intro i
    rw [zNormalize, List.getElem?_map]
  · intro c hc
    have hn : (w.length : ℝ) ≠ 0 := Nat.cast_ne_zero.mpr (by omega)
    have hmean : listMean w = c := by
      rw [listMean, List.sum_eq_card_nsmul w c hc, nsmul_eq_mul, mul_comm, mul_div_assoc,
        div_self hn, mul_one]
    rw [List.eq_replicate_iff]
    refine ⟨by rw [zNormalize, List.length_map], ?_⟩
    intro b hb
    rw [zNormalize] at hb
    obtain ⟨x, hx, rfl⟩ := List.mem_map.mp hb
    rw [hc x hx, hmean, sub_self, zero_div]
  · funext q
    rfl

theorem spec_c5_witness :
    ((groupWindowCount 2 1 [Row.mk "a" 0 1, Row.mk "a" 1 2, Row.mk "a" 2 3] : ℤ) =
      max 0 (([Row.mk "a" 0 1, Row.mk "a" 1 2, Row.mk "a" 2 3].length : ℤ) - 2 - 1 + 1)) :=
  (spec_c5 2 1 (by decide) (by decide) [Row.mk "a" 0 1, Row.mk "a" 1 2, Row.mk "a" 2 3]
    (by decide)).1.1

theorem spec_c7_witness :
    (symMetaRows "a" 2 1 [1, 2, 3] [10, 20, 30])[0]? =
      some (MetaRow.mk "a" ([(10 : ℤ), 20, 30].getD (0 + 2 - 1) 0)
        (([(1 : ℚ), 2, 3].getD (0 + 2 - 1 + 1) 0) / ([(1 : ℚ), 2, 3].getD (0 + 2 - 1) 0) - 1)) :=
  (spec_c7 2 1 (by decide) (by decide) "a" [1, 2, 3] [10, 20, 30] (by decide) (by decide) 0
    (by decide)).1

theorem spec_c6_witness :
    0 < listStd [(1 : ℝ), 2] + EPS
    ∧ (∀ i : ℕ, (zNormalize [(1 : ℝ), 2])[i]? =
        Option.map (fun x => (x - listMean [(1 : ℝ), 2]) / (listStd [(1 : ℝ), 2] + EPS))
          [(1 : ℝ), 2][i]?)
    ∧ (∀ c : ℝ, (∀ x ∈ [(1 : ℝ), 2], x = c) →
        zNormalize [(1 : ℝ), 2] = List.replicate [(1 : ℝ), 2].length 0)
    ∧ zNormalizeQuery = zNormalize :=
  spec_c6 [(1 : ℝ), 2] (by decide)

/-! ### The lexicographic orders: basic facts -/

theorem charLtB_iff (a b : Char) : charLtB a b = true ↔ a.toNat < b.toNat := by
  unfold charLtB
  rw [Nat.blt_eq]

theorem char_eq_of_toNat_eq (a b : Char) (h : a.toNat = b.toNat) : a = b := by
  apply Char.ext
  unfold Char.toNat at h
  exact UInt32.toNat.inj h

theorem lexLtB_nil_left (b : List Char) : lexLtB [] b = true ↔ b ≠ [] := by
  cases b <;> simp [lexLtB]

theorem lexLtB_nil_right (a : List Char) : lexLtB a [] = false := by
  cases a <;> simp [lexLtB]

theorem lexLtB_cons_iff (x y : Char) (xs ys : List Char) :
    lexLtB (x :: xs) (y :: ys) = true ↔
      x.toNat < y.toNat ∨ (x.toNat = y.toNat ∧ lexLtB xs ys = true) := by
  have h1 := charLtB_iff x y
  have h2 := charLtB_iff y x
  have hdef : lexLtB (x :: xs) (y :: ys) =
      if charLtB x y = true then true
      else if charLtB y x = true then false
      else lexLtB xs ys := rfl
  rw [hdef]
  by_cases c1 : charLtB x y = true
  · rw [if_pos c1]
    simp only [true_iff]
    exact Or.inl (h1.mp c1)
  · rw [if_neg c1]
    have hx : ¬ x.toNat < y.toNat := fun hh => c1 (h1.mpr hh)
    by_cases c2 : charLtB y x = true
    · rw [if_pos c2]
      have hyx := h2.mp c2
      constructor
      · intro hf; exact absurd hf (by simp)
      · rintro (hc | ⟨he, _⟩) <;> omega
    · rw [if_neg c2]
      have hy : ¬ y.toNat < x.toNat := fun hh => c2 (h2.mpr hh)
      have he : x.toNat = y.toNat := by omega
      constructor
      · intro ht; exact Or.inr ⟨he, ht⟩
      · rintro (hc | ⟨_, ht⟩)
        · omega
        · exact ht

theorem lexLtB_trans : ∀ (a b c : List Char), lexLtB a b = true → lexLtB b c = true →
    lexLtB a c = true := by
  intro a
  induction a with
  | nil =>
    intro b c hab hbc
    cases c with
    | nil =>
      rw [lexLtB_nil_right] at hbc
      exact absurd hbc (by simp)
    | cons z zs => rw [lexLtB_nil_left]; simp
  | cons x xs ih =>
    intro b c hab hbc
    cases b with
    | nil =>
      rw [lexLtB_nil_right] at hab
      exact absurd hab (by simp)
    | cons y ys =>
      cases c with
      | nil =>
        rw [lexLtB_nil_right] at hbc
        exact absurd hbc (by simp)
      | cons z zs =>
        rw [lexLtB_cons_iff] at hab hbc ⊢
        rcases hab with h | ⟨e1, t1⟩ <;> rcases hbc with h2 | ⟨e2, t2⟩
        · exact Or.inl (by omega)
        · exact Or.inl (by omega)
        · exact Or.inl (by omega)
        · exact Or.inr ⟨by omega, ih ys zs t1 t2⟩

theorem lexLtB_eq_of_not : ∀ (a b : List Char), lexLtB a b = false → lexLtB b a = false →
    a = b := by
  intro a
  induction a with
  | nil =>
    intro b h1 _
    cases b with
    | nil => rfl
    | cons y ys =>
      have : lexLtB [] (y :: ys) = true := (lexLtB_nil_left _).mpr (by simp)
      rw [h1] at this
      exact absurd this (by simp)
  | cons x xs ih =>
    intro b h1 h2
    cases b with
    | nil =>
      have : lexLtB [] (x :: xs) = true := (lexLtB_nil_left _).mpr (by simp)
      rw [h2] at this
      exact absurd this (by simp)
    | cons y ys =>
      have n1 : ¬ (x.toNat < y.toNat ∨ (x.toNat = y.toNat ∧ lexLtB xs ys = true)) := by
        rw [← lexLtB_cons_iff]; simp [h1]
      have n2 : ¬ (y.toNat < x.toNat ∨ (y.toNat = x.toNat ∧ lexLtB ys xs = true)) := by
        rw [← lexLtB_cons_iff]; simp [h2]
      push_neg at n1 n2
      have he : x.toNat = y.toNat := by
        have := n1.1
        have := n2.1
        omega
      have hx : x = y := char_eq_of_toNat_eq x y he
      have t1 : lexLtB xs ys = false := by
        cases hb : lexLtB xs ys with
        | false => rfl
        | true => exact absurd hb (n1.2 he)
      rw [hx, ih ys t1 (by
        cases hb : lexLtB ys xs with
        | false => rfl
        | true => exact absurd hb (n2.2 he.symm))]

theorem strLtB_trans (a b c : String) (h1 : strLtB a b = true) (h2 : strLtB b c = true) :
    strLtB a c = true :=
  lexLtB_trans _ _ _ h1 h2

theorem str_eq_of_not_lt (a b : String) (h1 : strLtB a b = false) (h2 : strLtB b a = false) :
    a = b :=
  String.ext (lexLtB_eq_of_not _ _ h1 h2)

theorem lexLtB_irrefl : ∀ (a : List Char), lexLtB a a = false := by
  intro a
  induction a with
  | nil => rfl
  | cons x xs ih =>
    cases hb : lexLtB (x :: xs) (x :: xs) with
    | false => rfl
    | true =>
      rw [lexLtB_cons_iff] at hb
      rcases hb with h | ⟨_, ht⟩
      · omega
      · rw [ih] at ht
        exact absurd ht (by simp)

theorem strLtB_irrefl (a : String) : strLtB a a = false :=
  lexLtB_irrefl a.data

/-! ### The batch sort: totality, transitivity, canonicity -/

theorem rowLE_total : ∀ a b : Row, rowLE a b ∨ rowLE b a := by
  intro a b
  unfold rowLE rowLeB
  cases hab : strLtB a.symbol b.symbol with
  | true => exact Or.inl (by simp)
  | false =>
    cases hba : strLtB b.symbol a.symbol with
    | true => exact Or.inr (by simp)
    | false =>
      have he : a.symbol = b.symbol := str_eq_of_not_lt _ _ hab hba
      rcases Int.le_total a.ts b.ts with h | h
      · exact Or.inl (by simp [he, h])
      · exact Or.inr (by simp [he, h])

theorem rowLE_trans : ∀ a b c : Row, rowLE a b → rowLE b c → rowLE a c := by
  intro a b c h1 h2
  unfold rowLE rowLeB at h1 h2 ⊢
  simp only [Bool.or_eq_true, Bool.and_eq_true, beq_iff_eq, decide_eq_true_iff] at h1 h2 ⊢
  rcases h1 with h1 | ⟨e1, l1⟩ <;> rcases h2 with h2 | ⟨e2, l2⟩
  · exact Or.inl (strLtB_trans _ _ _ h1 h2)
  · exact Or.inl (by rw [← e2]; exact h1)
  · exact Or.inl (by rw [e1]; exact h2)
  · exact Or.inr ⟨e1.trans e2, le_trans l1 l2⟩

instance : IsTotal Row rowLE := ⟨rowLE_total⟩

instance : IsTrans Row rowLE := ⟨rowLE_trans⟩

theorem rowKey_eq_of_le_le (a b : Row) (h1 : rowLE a b) (h2 : rowLE b a) :
    rowKey a = rowKey b := by
  unfold rowLE rowLeB at h1 h2
  simp only [Bool.or_eq_true, Bool.and_eq_true, beq_iff_eq, decide_eq_true_iff] at h1 h2
  rcases h1 with h1 | ⟨e1, l1⟩ <;> rcases h2 with h2 | ⟨e2, l2⟩
  · have := strLtB_trans _ _ _ h1 h2
    rw [strLtB_irrefl] at this
    exact absurd this (by simp)
  · rw [e2] at h1
    rw [strLtB_irrefl] at h1
    exact absurd h1 (by simp)
  · rw [e1] at h2
    rw [strLtB_irrefl] at h2
    exact absurd h2 (by simp)
  · unfold rowKey
    rw [e1, le_antisymm l1 l2]

theorem sortRows_sorted (l : List Row) : List.Sorted rowLE (sortRows l) :=
  List.sorted_insertionSort rowLE l

theorem sortRows_perm (l : List Row) : (sortRows l).Perm l :=
  List.perm_insertionSort rowLE l

theorem sorted_unique_keys_eq : ∀ (l₁ l₂ : List Row), l₁.Perm l₂ →
    (l₁.map rowKey).Nodup → List.Sorted rowLE l₁ → List.Sorted rowLE l₂ → l₁ = l₂ := by
  intro l₁
  induction l₁ with
  | nil =>
    intro l₂ hp _ _ _
    rw [← List.Perm.eq_nil hp.symm]
  | cons a t ih =>
    intro l₂ hp hnd hs1 hs2
    cases l₂ with
    | nil => exact absurd (List.Perm.eq_nil hp) (by simp)
    | cons b u =>
      have hab : a = b := by
        have hbmem : b ∈ a :: t := hp.symm.subset (by simp)
        rcases List.mem_cons.mp hbmem with h | hbt
        · exact h.symm
        · have hamem : a ∈ b :: u := hp.subset (by simp)
          rcases List.mem_cons.mp hamem with h | hau
          · exact h
          · have r1 : rowLE a b := (List.sorted_cons.mp hs1).1 b hbt
            have r2 : rowLE b a := (List.sorted_cons.mp hs2).1 a hau
            have hk : rowKey a = rowKey b := rowKey_eq_of_le_le a b r1 r2
            have hnmem : rowKey a ∉ t.map rowKey := (List.nodup_cons.mp hnd).1
            exact absurd (hk ▸ List.mem_map_of_mem rowKey hbt) hnmem
      subst hab
      have hp' : t.Perm u := hp.cons_inv
      rw [ih u hp' (List.nodup_cons.mp hnd).2 (List.sorted_cons.mp hs1).2
        (List.sorted_cons.mp hs2).2]

theorem sortRows_eq_of_perm (l₁ l₂ : List Row) (hp : l₁.Perm l₂)
    (hnd : (l₁.map rowKey).Nodup) : sortRows l₁ = sortRows l₂ := by
  apply sorted_unique_keys_eq
  · exact (sortRows_perm l₁).trans (hp.trans (sortRows_perm l₂).symm)
  · exact ((sortRows_perm l₁).map rowKey).nodup_iff.mpr hnd
  · exact sortRows_sorted l₁
  · exact sortRows_sorted l₂

theorem batchDf_eq_of_perm (rows₁ rows₂ : List Row) (chunk : List String)
    (hp : rows₁.Perm rows₂) (hnd : (rows₁.map rowKey).Nodup) :
    batchDf rows₁ chunk = batchDf rows₂ chunk := by
  unfold batchDf
  apply sortRows_eq_of_perm
  · exact hp.filter _
  · exact List.Nodup.sublist (List.Sublist.map rowKey (List.filter_sublist rows₁)) hnd

/-- C1 divergence: at a completed build with eleven non-empty batches (batch
size 1, eleven symbols, W = 1, H = 1, no load failures) the merged metadata
table lists the batches in alphabetical shard-file order (part_10 sorts before
part_2), so its row order differs from the vector append order: the metadata
symbol column reads s0, s1, s10, s2, ..., s9 while the vectors were appended
in order s0, s1, s2, ..., s10 — row id 2 holds batch 10's metadata against
batch 2's vector. -/
theorem spec_c1_divergence :
    ((metaFileOf (buildOut 1 1 1 (fun _ => false) [Row.mk "s0" 0 1, Row.mk "s0" 1 2, Row.mk "s1" 0 1, Row.mk "s1" 1 2, Row.mk "s2" 0 1, Row.mk "s2" 1 2, Row.mk "s3" 0 1, Row.mk "s3" 1 2, Row.mk "s4" 0 1, Row.mk "s4" 1 2, Row.mk "s5" 0 1, Row.mk "s5" 1 2, Row.mk "s6" 0 1, Row.mk "s6" 1 2, Row.mk "s7" 0 1, Row.mk "s7" 1 2, Row.mk "s8" 0 1, Row.mk "s8" 1 2, Row.mk "s9" 0 1, Row.mk "s9" 1 2, Row.mk "s10" 0 1, Row.mk "s10" 1 2]
        ["s0", "s1", "s2", "s3", "s4", "s5", "s6", "s7", "s8", "s9", "s10"])).getD []).map MetaRow.symbol = ["s0", "s1", "s10", "s2", "s3", "s4", "s5", "s6", "s7", "s8", "s9"]
    ∧ (buildOut 1 1 1 (fun _ => false) [Row.mk "s0" 0 1, Row.mk "s0" 1 2, Row.mk "s1" 0 1, Row.mk "s1" 1 2, Row.mk "s2" 0 1, Row.mk "s2" 1 2, Row.mk "s3" 0 1, Row.mk "s3" 1 2, Row.mk "s4" 0 1, Row.mk "s4" 1 2, Row.mk "s5" 0 1, Row.mk "s5" 1 2, Row.mk "s6" 0 1, Row.mk "s6" 1 2, Row.mk "s7" 0 1, Row.mk "s7" 1 2, Row.mk "s8" 0 1, Row.mk "s8" 1 2, Row.mk "s9" 0 1, Row.mk "s9" 1 2, Row.mk "s10" 0 1, Row.mk "s10" 1 2]
        ["s0", "s1", "s2", "s3", "s4", "s5", "s6", "s7", "s8", "s9", "s10"]).pairs.map (fun p => p.1.symbol) = ["s0", "s1", "s2", "s3", "s4", "s5", "s6", "s7", "s8", "s9", "s10"]
    ∧ ((metaFileOf (buildOut 1 1 1 (fun _ => false) [Row.mk "s0" 0 1, Row.mk "s0" 1 2, Row.mk "s1" 0 1, Row.mk "s1" 1 2, Row.mk "s2" 0 1, Row.mk "s2" 1 2, Row.mk "s3" 0 1, Row.mk "s3" 1 2, Row.mk "s4" 0 1, Row.mk "s4" 1 2, Row.mk "s5" 0 1, Row.mk "s5" 1 2, Row.mk "s6" 0 1, Row.mk "s6" 1 2, Row.mk "s7" 0 1, Row.mk "s7" 1 2, Row.mk "s8" 0 1, Row.mk "s8" 1 2, Row.mk "s9" 0 1, Row.mk "s9" 1 2, Row.mk "s10" 0 1, Row.mk "s10" 1 2]
        ["s0", "s1", "s2", "s3", "s4", "s5", "s6", "s7", "s8", "s9", "s10"])).getD []).map MetaRow.symbol ≠
      (buildOut 1 1 1 (fun _ => false) [Row.mk "s0" 0 1, Row.mk "s0" 1 2, Row.mk "s1" 0 1, Row.mk "s1" 1 2, Row.mk "s2" 0 1, Row.mk "s2" 1 2, Row.mk "s3" 0 1, Row.mk "s3" 1 2, Row.mk "s4" 0 1, Row.mk "s4" 1 2, Row.mk "s5" 0 1, Row.mk "s5" 1 2, Row.mk "s6" 0 1, Row.mk "s6" 1 2, Row.mk "s7" 0 1, Row.mk "s7" 1 2, Row.mk "s8" 0 1, Row.mk "s8" 1 2, Row.mk "s9" 0 1, Row.mk "s9" 1 2, Row.mk "s10" 0 1, Row.mk "s10" 1 2]
        ["s0", "s1", "s2", "s3", "s4", "s5", "s6", "s7", "s8", "s9", "s10"]).pairs.map (fun p => p.1.symbol) := by
  refine ⟨by decide, by decide, by decide⟩

/-- C2 counterexample: the claim quantifies only over the source rows and the
parameters, but the symbol ordering `lf.select("symbol").unique()` is not
determined by them — polars leaves its order unspecified.  Both ["A", "B"] and
["B", "A"] are valid unique() outputs for the same rows, and with batch size 1
they yield different artifacts (the metadata rows appear in a different
order), so two runs on identical inputs need not be byte-identical. -/
theorem spec_c2_counterexample :
    validSymOrder [Row.mk "A" 0 1, Row.mk "A" 1 2, Row.mk "A" 2 3,
        Row.mk "B" 0 2, Row.mk "B" 1 4, Row.mk "B" 2 6] ["A", "B"]
    ∧ validSymOrder [Row.mk "A" 0 1, Row.mk "A" 1 2, Row.mk "A" 2 3,
        Row.mk "B" 0 2, Row.mk "B" 1 4, Row.mk "B" 2 6] ["B", "A"]
    ∧ buildOut 2 1 1 (fun _ => false) [Row.mk "A" 0 1, Row.mk "A" 1 2, Row.mk "A" 2 3,
          Row.mk "B" 0 2, Row.mk "B" 1 4, Row.mk "B" 2 6] ["A", "B"] ≠
        buildOut 2 1 1 (fun _ => false) [Row.mk "A" 0 1, Row.mk "A" 1 2, Row.mk "A" 2 3,
          Row.mk "B" 0 2, Row.mk "B" 1 4, Row.mk "B" 2 6] ["B", "A"] := by
  refine ⟨⟨by decide, by decide⟩, ⟨by decide, by decide⟩, by decide⟩

/-- C2 amended: the build is deterministic once the symbol ordering is fixed:
the artifacts are a function of the multiset of source rows, the symbol
ordering, W, H, B and the set of failing batches.  In particular two runs that
scan the same rows in different physical order (with the per-symbol
(symbol, ts) keys pairwise distinct, as the upstream contract guarantees) and
obtain the same unique() ordering produce identical Index and MetadataTable
artifacts. -/
theorem spec_c2_amended (W H B : ℕ) (fails : ℕ → Bool) (rows₁ rows₂ : List Row)
    (symOrder : List String) (hp : rows₁.Perm rows₂)
    (hnd : (rows₁.map rowKey).Nodup) :
    buildOut W H B fails rows₁ symOrder = buildOut W H B fails rows₂ symOrder := by
  unfold buildOut
  congr 1
  refine List.map_congr_left ?_
  intro p _
  rw [batchDf_eq_of_perm rows₁ rows₂ p.2 hp hnd]

theorem spec_c2_amended_witness :
    buildOut 1 1 1 (fun _ => false)
        [Row.mk "A" 0 1, Row.mk "A" 1 2, Row.mk "B" 0 3, Row.mk "B" 1 4] ["A", "B"] =
      buildOut 1 1 1 (fun _ => false)
        [Row.mk "B" 1 4, Row.mk "B" 0 3, Row.mk "A" 1 2, Row.mk "A" 0 1] ["A", "B"] :=
  spec_c2_amended 1 1 1 (fun _ => false) _ _ ["A", "B"] (by decide) (by decide)

/-! ### Builds with zero vectors -/

theorem groupExtract_some_ne_nil (W H : ℕ) (hW : 0 < W) (hH : 0 < H) (g : List Row)
    (l : List (MetaRow × List ℚ)) (hl : groupExtract W H g = some l) : l ≠ [] := by
  obtain ⟨hle, hlen⟩ := groupExtract_some_length W H hW hH g l hl
  intro hnil
  rw [hnil] at hlen
  simp only [List.length_nil] at hlen
  omega

theorem stepBatch_cases (W H : ℕ) (hW : 0 < W) (hH : 0 < H) (acc : BuildOut)
    (b : ℕ × List Row) :
    stepBatch W H acc b = acc ∨ (stepBatch W H acc b).pairs ≠ [] := by
  unfold stepBatch
  by_cases he :
      ((b.2.splitBy (fun x y => x.symbol == y.symbol)).filterMap (groupExtract W H)).isEmpty
  · rw [if_pos he]
    exact Or.inl rfl
  · rw [if_neg he]
    refine Or.inr ?_
    intro hnil
    rcases List.append_eq_nil.mp hnil with ⟨_, h2⟩
    have hne : (b.2.splitBy (fun x y => x.symbol == y.symbol)).filterMap
        (groupExtract W H) ≠ [] := by
      intro hz
      rw [hz] at he
      exact he rfl
    obtain ⟨x, hx⟩ := List.exists_mem_of_ne_nil _ hne
    have hxnil : x = [] := (List.flatten_eq_nil_iff.mp h2) x hx
    obtain ⟨g', _, hg'⟩ := List.mem_filterMap.mp hx
    exact groupExtract_some_ne_nil W H hW hH g' x hg' hxnil

theorem buildSteps_pairs_nil (W H : ℕ) (hW : 0 < W) (hH : 0 < H) (fails : ℕ → Bool) :
    ∀ (batches : List (ℕ × List Row)) (acc : BuildOut),
      (batches.foldl (fun a b => if fails b.1 then a else stepBatch W H a b) acc).pairs = [] →
      batches.foldl (fun a b => if fails b.1 then a else stepBatch W H a b) acc = acc := by
  intro batches
  induction batches with
  | nil => intro acc _; rfl
  | cons b bs ih =>
    intro acc h
    rw [List.foldl_cons] at h ⊢
    by_cases hf : fails b.1
    · rw [if_pos hf] at h ⊢
      exact ih acc h
    · rw [if_neg hf] at h ⊢
      have h2 := ih _ h
      rw [h2] at h ⊢
      rcases stepBatch_cases W H hW hH acc b with hc | hc
      · exact hc
      · exact absurd h hc

theorem buildOut_pairs_nil_shards (W H B : ℕ) (hW : 0 < W) (hH : 0 < H) (fails : ℕ → Bool)
    (rows : List Row) (symOrder : List String)
    (h : (buildOut W H B fails rows symOrder).pairs = []) :
    (buildOut W H B fails rows symOrder).shards = [] := by
  unfold buildOut buildSteps at h ⊢
  rw [buildSteps_pairs_nil W H hW hH fails _ emptyBuild h]
  rfl

/-- C10: a build that ends with zero vectors (every batch skipped or empty)
still writes the Index file, with count 0, but never creates the MetadataTable
file; the two persisted artifacts therefore do not agree (one exists, the
other is absent), and any subsequent query against them fails the
missing-artifact check — outcome `indexNotBuilt` — rather than returning an
empty result. -/
theorem spec_c10 (W H B : ℕ) (hW : 0 < W) (hH : 0 < H) (fails : ℕ → Bool)
    (rows : List Row) (symOrder : List String)
    (h : (buildOut W H B fails rows symOrder).pairs = []) :
    metaFileOf (buildOut W H B fails rows symOrder) = none
    ∧ (writeIndex (builtIndex W (buildOut W H B fails rows symOrder))).count = 0
    ∧ ∀ (dataset : Option (List Row)) (target : String) (W' : ℕ),
        searchPattern
          (some (readIndex (writeIndex (builtIndex W (buildOut W H B fails rows symOrder)))))
          (metaFileOf (buildOut W H B fails rows symOrder)) dataset target W' =
          QueryOutcome.indexNotBuilt := by
  have hs := buildOut_pairs_nil_shards W H B hW hH fails rows symOrder h
  have hm : metaFileOf (buildOut W H B fails rows symOrder) = none := by
    unfold metaFileOf
    rw [hs]
    rfl
  refine ⟨hm, ?_, ?_⟩
  · unfold writeIndex builtIndex builtVecs
    rw [h]
    rfl
  · intro dataset target W'
    rw [hm]
    rfl

theorem spec_c10_witness :
    metaFileOf (buildOut 1 1 1 (fun _ => false) [] ["a"]) = none
    ∧ (writeIndex (builtIndex 1 (buildOut 1 1 1 (fun _ => false) [] ["a"]))).count = 0
    ∧ ∀ (dataset : Option (List Row)) (target : String) (W' : ℕ),
        searchPattern
          (some (readIndex (writeIndex (builtIndex 1 (buildOut 1 1 1 (fun _ => false) [] ["a"])))))
          (metaFileOf (buildOut 1 1 1 (fun _ => false) [] ["a"])) dataset target W' =
          QueryOutcome.indexNotBuilt :=
  spec_c10 1 1 1 (by decide) (by decide) (fun _ => false) [] ["a"] (by decide)

/-! ### The flat-index search contract -/

instance rankLE_total {α : Type} [LinearOrderedField α] : IsTotal (ℤ × α) rankLE := ⟨by
  intro a b
  unfold rankLE
  rcases lt_trichotomy a.2 b.2 with h | h | h
  · exact Or.inl (Or.inl h)
  · rcases le_total a.1 b.1 with h2 | h2
    · exact Or.inl (Or.inr ⟨h, h2⟩)
    · exact Or.inr (Or.inr ⟨h.symm, h2⟩)
  · exact Or.inr (Or.inl h)⟩

instance rankLE_trans {α : Type} [LinearOrderedField α] : IsTrans (ℤ × α) rankLE := ⟨by
  intro a b c h1 h2
  unfold rankLE at h1 h2 ⊢
  rcases h1 with h1 | ⟨e1, l1⟩ <;> rcases h2 with h2 | ⟨e2, l2⟩
  · exact Or.inl (h1.trans h2)
  · exact Or.inl (by rw [← e2]; exact h1)
  · exact Or.inl (by rw [e1]; exact h2)
  · exact Or.inr ⟨e1.trans e2, l1.trans l2⟩⟩

theorem sqDist_self {α : Type} [LinearOrderedField α] (q : List α) : sqDist q q = 0 := by
  unfold sqDist
  rw [List.zipWith_same]
  have : ∀ x ∈ q.map (fun a => (a - a) * (a - a)), x = (0 : α) := by
    intro x hx
    obtain ⟨a, _, rfl⟩ := List.mem_map.mp hx
    rw [sub_self, mul_zero]
  rw [List.sum_eq_card_nsmul _ 0 this, smul_zero]

theorem sqDist_nonneg {α : Type} [LinearOrderedField α] (q v : List α) : 0 ≤ sqDist q v := by
  unfold sqDist
  induction q generalizing v with
  | nil => simp
  | cons a as ih =>
    cases v with
    | nil => simp
    | cons b bs =>
      rw [List.zipWith_cons_cons, List.sum_cons]
      have h1 := mul_self_nonneg (a - b)
      have h2 := ih bs
      linarith

theorem sqDist_eq_zero {α : Type} [LinearOrderedField α] :
    ∀ (q v : List α), v.length = q.length → sqDist q v = 0 → v = q := by
  intro q
  induction q with
  | nil =>
    intro v h _
    cases v with
    | nil => rfl
    | cons b bs => exact absurd h (by simp)
  | cons a as ih =>
    intro v h hz
    cases v with
    | nil => exact absurd h (by simp)
    | cons b bs =>
      unfold sqDist at hz
      rw [List.zipWith_cons_cons, List.sum_cons] at hz
      have h1 := mul_self_nonneg (a - b)
      have h2 : (0 : α) ≤ (List.zipWith (fun a b => (a - b) * (a - b)) as bs).sum := by
        have := sqDist_nonneg as bs
        unfold sqDist at this
        exact this
      have hz1 : (a - b) * (a - b) = 0 := by linarith
      have hz2 : sqDist as bs = 0 := by
        unfold sqDist
        linarith
      have hab : b = a := (sub_eq_zero.mp (mul_self_eq_zero.mp hz1)).symm
      rw [hab, ih bs (by simpa using h) hz2]

theorem rankedPairs_perm {α : Type} [LinearOrderedField α] (vecs : List (List α)) (q : List α) :
    (rankedPairs vecs q).Perm ((vecs.enum).map (fun p => ((p.1 : ℤ), sqDist q p.2))) :=
  List.perm_insertionSort rankLE _

theorem rankedPairs_sorted {α : Type} [LinearOrderedField α] (vecs : List (List α))
    (q : List α) : List.Sorted rankLE (rankedPairs vecs q) :=
  List.sorted_insertionSort rankLE _

theorem rankedPairs_length {α : Type} [LinearOrderedField α] (vecs : List (List α))
    (q : List α) : (rankedPairs vecs q).length = vecs.length := by
  rw [(rankedPairs_perm vecs q).length_eq, List.length_map, List.enum_length]

/-- C3 (the faiss flat index is an external dependency; its search contract is
modelled from spec §4.3): search results are ordered by non-decreasing squared
Euclidean distance with ties broken by lower row id, and when the query equals
a stored vector the first result has distance exactly 0 and carries the
smallest row id whose stored vector equals the query. -/
theorem spec_c3 {α : Type} [LinearOrderedField α] (vecs : List (List α)) (q : List α)
    (k : ℕ) :
    List.Pairwise rankLE ((rankedPairs vecs q).take k)
    ∧ ∀ j, ∀ hj : j < vecs.length, vecs[j] = q → (∀ v ∈ vecs, v.length = q.length) →
        1 ≤ k → ∃ i : ℕ, i ≤ j ∧ ∃ hi : i < vecs.length, vecs[i] = q ∧
          (faissSearch vecs q k).head? = some ((i : ℤ), 0) := by
  constructor
  · exact List.Pairwise.sublist (List.take_sublist k _) (rankedPairs_sorted vecs q)
  · intro j hj hq hdim hk
    have hlen : (rankedPairs vecs q).length = vecs.length := rankedPairs_length vecs q
    cases hrp : rankedPairs vecs q with
    | nil =>
      rw [hrp] at hlen
      simp only [List.length_nil] at hlen
      omega
    | cons r0 rest =>
      have hje : j < (vecs.enum.map (fun p => ((p.1 : ℤ), sqDist q p.2))).length := by
        rw [List.length_map, List.enum_length]
        exact hj
      have hjmem : ((j : ℤ), (0 : α)) ∈
          vecs.enum.map (fun p => ((p.1 : ℤ), sqDist q p.2)) := by
        have hval : (vecs.enum.map (fun p => ((p.1 : ℤ), sqDist q p.2)))[j] =
            ((j : ℤ), (0 : α)) := by
          rw [List.getElem_map, List.getElem_enum, hq, sqDist_self]
        rw [← hval]
        exact List.getElem_mem hje
      have hjr : ((j : ℤ), (0 : α)) ∈ rankedPairs vecs q :=
        (rankedPairs_perm vecs q).symm.subset hjmem
      have hmem_char : ∀ p ∈ rankedPairs vecs q, ∃ i : ℕ, ∃ hi : i < vecs.length,
          p = ((i : ℤ), sqDist q vecs[i]) := by
        intro p hp
        have hp' : p ∈ vecs.enum.map (fun p => ((p.1 : ℤ), sqDist q p.2)) :=
          (rankedPairs_perm vecs q).subset hp
        obtain ⟨pe, hpe, rfl⟩ := List.mem_map.mp hp'
        obtain ⟨i, hie, hg⟩ := List.mem_iff_getElem.mp hpe
        rw [List.getElem_enum] at hg
        have hiv : i < vecs.length := by
          rw [List.enum_length] at hie
          exact hie
        refine ⟨i, hiv, ?_⟩
        rw [← hg]
      have hsorted := rankedPairs_sorted vecs q
      rw [hrp] at hsorted hjr
      have hr0 : r0 = ((j : ℤ), (0 : α)) ∨ rankLE r0 ((j : ℤ), (0 : α)) := by
        rcases List.mem_cons.mp hjr with h | h
        · exact Or.inl h.symm
        · exact Or.inr ((List.sorted_cons.mp hsorted).1 _ h)
      obtain ⟨i, hiv, hr0c⟩ :=
        hmem_char r0 (by rw [hrp]; exact List.mem_cons_self r0 rest)
      have hnn : (0 : α) ≤ r0.2 := by
        rw [hr0c]
        exact sqDist_nonneg q vecs[i]
      have hd0 : r0.2 = 0 ∧ r0.1 ≤ (j : ℤ) := by
        rcases hr0 with h | h
        · rw [h]
          exact ⟨rfl, le_refl _⟩
        · unfold rankLE at h
          rcases h with h | ⟨h1, h2⟩
          · exact absurd h (not_lt.mpr hnn)
          · exact ⟨h1, h2⟩
      have hij : i ≤ j := by
        have hfst : r0.1 = (i : ℤ) := by rw [hr0c]
        have := hd0.2
        rw [hfst] at this
        exact_mod_cast this
      have hsq0 : sqDist q vecs[i] = 0 := by
        have h2 : r0.2 = sqDist q vecs[i] := by rw [hr0c]
        rw [← h2]
        exact hd0.1
      have hvq : vecs[i] = q :=
        sqDist_eq_zero q vecs[i] (hdim _ (List.getElem_mem hiv)) hsq0
      refine ⟨i, hij, hiv, hvq, ?_⟩
      unfold faissSearch
      rw [hrp]
      obtain ⟨k', rfl⟩ : ∃ k', k = k' + 1 := ⟨k - 1, by omega⟩
      rw [List.take_succ_cons, List.cons_append, List.head?_cons]
      congr 1
      rw [hr0c, hvq, sqDist_self]

theorem spec_c3_witness :
    ∃ i : ℕ, i ≤ 1 ∧ ∃ hi : i < [[(1 : ℚ)], [3]].length, [[(1 : ℚ)], [3]][i] = [3] ∧
      (faissSearch [[(1 : ℚ)], [3]] [3] 2).head? = some ((i : ℤ), 0) :=
  (spec_c3 [[(1 : ℚ)], [3]] [3] 2).2 1 (by decide) (by decide) (by decide) (by decide)

/-- C4 (faiss persistence is an external dependency; its write/read/reconstruct
contract is modelled from spec §4.3): after persisting the index artifact and
freshly loading it, reconstruct(row_id) returns exactly the vector appended at
that row id during construction — the normalization of the raw window of the
record assigned that row id, with no loss. -/
theorem spec_c4 (W H B : ℕ) (fails : ℕ → Bool) (rows : List Row) (symOrder : List String)
    (i : ℕ) (hi : i < (buildOut W H B fails rows symOrder).pairs.length) :
    reconstruct (readIndex (writeIndex (builtIndex W (buildOut W H B fails rows symOrder)))) i
      = some (zNormalize
          ((((buildOut W H B fails rows symOrder).pairs.get ⟨i, hi⟩).2).map
            (fun x => (x : ℝ)))) := by
  unfold reconstruct readIndex writeIndex builtIndex builtVecs
  rw [List.getElem?_map, List.getElem?_eq_getElem hi, Option.map_some']
  rfl

theorem spec_c4_witness :
    reconstruct (readIndex (writeIndex (builtIndex 1 (buildOut 1 1 1 (fun _ => false)
        [Row.mk "A" 0 1, Row.mk "A" 1 2] ["A"])))) 0
      = some (zNormalize ((((buildOut 1 1 1 (fun _ => false)
          [Row.mk "A" 0 1, Row.mk "A" 1 2] ["A"]).pairs.get ⟨0, by decide⟩).2).map
            (fun x => (x : ℝ)))) :=
  spec_c4 1 1 1 (fun _ => false) [Row.mk "A" 0 1, Row.mk "A" 1 2] ["A"] 0 (by decide)

/-- C9: a query against a missing Index or MetadataTable file exits on the
missing-artifact check with the distinct outcome `indexNotBuilt`, and a target
with fewer than W closes exits with the distinct outcome
`insufficientHistory`; each failure is a specific branch taken before the
search is ever invoked (the outcome is the same for every index content), and
no generic exception is raised. -/
theorem spec_c9 (W : ℕ) :
    (∀ (metaF : Option (List MetaRow)) (dataset : Option (List Row)) (target : String),
        searchPattern none metaF dataset target W = QueryOutcome.indexNotBuilt)
    ∧ (∀ (index : FaissIndex ℝ) (dataset : Option (List Row)) (target : String),
        searchPattern (some index) none dataset target W = QueryOutcome.indexNotBuilt)
    ∧ (∀ (index : FaissIndex ℝ) (meta : List MetaRow) (rows : List Row) (target : String),
        (targetTail rows target W).length < W →
          searchPattern (some index) (some meta) (some rows) target W =
            QueryOutcome.insufficientHistory)
    ∧ QueryOutcome.indexNotBuilt ≠ QueryOutcome.insufficientHistory
    ∧ (∀ (r : List (ℤ × MetaRow)) (a b : ℚ), QueryOutcome.indexNotBuilt ≠ QueryOutcome.ok r a b)
    ∧ (∀ (r : List (ℤ × MetaRow)) (a b : ℚ),
        QueryOutcome.insufficientHistory ≠ QueryOutcome.ok r a b) := by
  refine ⟨?_, ?_, ?_, ?_, ?_, ?_⟩
  · intro metaF dataset target
    cases metaF <;> rfl
  · intro index dataset target
    rfl
  · intro index meta rows target h
    show (if (targetTail rows target W).length < W then QueryOutcome.insufficientHistory
      else if (returnsStats index meta rows target W).length = 0 then QueryOutcome.zeroDivision
      else QueryOutcome.ok (rankedResults index meta rows target W)
        ((((returnsStats index meta rows target W).filter
            (fun r => decide (0 < r))).length : ℚ) /
          ((returnsStats index meta rows target W).length : ℚ) * 100)
        ((returnsStats index meta rows target W).sum /
          ((returnsStats index meta rows target W).length : ℚ))) =
      QueryOutcome.insufficientHistory
    rw [if_pos h]
  · intro h
    exact QueryOutcome.noConfusion h
  · intro r a b h
    exact QueryOutcome.noConfusion h
  · intro r a b h
    exact QueryOutcome.noConfusion h

theorem spec_c9_witness :
    searchPattern (some (FaissIndex.mk 2 [])) (some []) (some []) "X" 2 =
      QueryOutcome.insufficientHistory :=
  (spec_c9 2).2.2.1 (FaissIndex.mk 2 []) [] [] "X" (by decide)

/-! ### Queries with K larger than the index -/

theorem searchPattern_ok_eval (index : FaissIndex ℝ) (meta : List MetaRow) (rows : List Row)
    (target : String) (W : ℕ) (h1 : ¬ (targetTail rows target W).length < W)
    (h2 : ¬ (returnsStats index meta rows target W).length = 0) :
    searchPattern (some index) (some meta) (some rows) target W =
      QueryOutcome.ok (rankedResults index meta rows target W)
        ((((returnsStats index meta rows target W).filter
            (fun r => decide (0 < r))).length : ℚ) /
          ((returnsStats index meta rows target W).length : ℚ) * 100)
        ((returnsStats index meta rows target W).sum /
          ((returnsStats index meta rows target W).length : ℚ)) := by
  show (if (targetTail rows target W).length < W then QueryOutcome.insufficientHistory
    else if (returnsStats index meta rows target W).length = 0 then QueryOutcome.zeroDivision
    else QueryOutcome.ok (rankedResults index meta rows target W)
      ((((returnsStats index meta rows target W).filter
          (fun r => decide (0 < r))).length : ℚ) /
        ((returnsStats index meta rows target W).length : ℚ) * 100)
      ((returnsStats index meta rows target W).sum /
        ((returnsStats index meta rows target W).length : ℚ))) = _
  rw [if_neg h1, if_neg h2]

theorem metaWithRowId_length (meta : List MetaRow) :
    (metaWithRowId meta).length = meta.length := by
  unfold metaWithRowId
  rw [List.length_map, List.enum_length]

theorem metaWithRowId_map_snd (meta : List MetaRow) :
    (metaWithRowId meta).map Prod.snd = meta := by
  unfold metaWithRowId
  rw [List.map_map]
  exact List.enum_map_snd meta

theorem mem_foundIds (index : FaissIndex ℝ) (rows : List Row) (target : String) (W : ℕ)
    (hN : index.vecs.length ≤ TOP_K) (m : ℕ) (hm : m < index.vecs.length) :
    (m : ℤ) ∈ foundIds index rows target W := by
  unfold foundIds faissSearch
  rw [List.take_of_length_le (by rw [rankedPairs_length]; exact hN)]
  rw [List.map_append]
  apply List.mem_append_left
  have hperm := (rankedPairs_perm index.vecs (queryVecR rows target W)).map Prod.fst
  rw [hperm.mem_iff, List.map_map]
  have hcomp : (Prod.fst ∘ fun p : ℕ × List ℝ =>
      ((p.1 : ℤ), sqDist (queryVecR rows target W) p.2)) =
      ((fun n : ℕ => (n : ℤ)) ∘ Prod.fst) := rfl
  rw [hcomp, ← List.map_map, List.enum_map_fst]
  exact List.mem_map_of_mem _ (List.mem_range.mpr hm)

theorem dfResults_eq (index : FaissIndex ℝ) (meta : List MetaRow) (rows : List Row)
    (target : String) (W : ℕ) (hc : index.vecs.length = meta.length)
    (hN : meta.length ≤ TOP_K) :
    dfResults index meta rows target W = metaWithRowId meta := by
  unfold dfResults
  apply List.filter_eq_self.mpr
  intro p hp
  unfold metaWithRowId at hp
  obtain ⟨pe, hpe, rfl⟩ := List.mem_map.mp hp
  have hplt : pe.1 < meta.length := by
    have hmm : pe.1 ∈ meta.enum.map Prod.fst := List.mem_map_of_mem _ hpe
    rw [List.enum_map_fst] at hmm
    exact List.mem_range.mp hmm
  have hmem : ((pe.1 : ℤ)) ∈ foundIds index rows target W :=
    mem_foundIds index rows target W (by omega) pe.1 (by omega)
  exact List.elem_iff.mpr hmem

/-- C8: a query whose K (TOP_K = 9) exceeds the number N of stored rows does
not fail: the faiss id array is padded with -1, the metadata filter drops the
padding, every one of the N rows is retrieved exactly once, and win_rate and
avg_outcome are computed over those N neighbors only (the code reports both
as percentages: win_rate = fraction(outcome > 0) · 100 and
avg_outcome = mean(outcome · 100)). -/
theorem spec_c8 (index : FaissIndex ℝ) (meta : List MetaRow) (rows : List Row)
    (target : String) (W : ℕ)
    (hc : index.vecs.length = meta.length)
    (hlt : meta.length < TOP_K)
    (h1 : 1 ≤ meta.length)
    (htail : ¬ (targetTail rows target W).length < W) :
    searchPattern (some index) (some meta) (some rows) target W =
      QueryOutcome.ok (rankedResults index meta rows target W)
        ((((meta.filter (fun m => decide (0 < m.ret))).length : ℚ) / (meta.length : ℚ)) * 100)
        (((meta.map MetaRow.ret).sum * 100) / (meta.length : ℚ))
    ∧ (rankedResults index meta rows target W).length = meta.length
    ∧ ((rankedResults index meta rows target W).map Prod.snd).Perm meta := by
  have hdf := dfResults_eq index meta rows target W hc (by omega)
  have hres_perm : (rankedResults index meta rows target W).Perm (metaWithRowId meta) := by
    unfold rankedResults
    rw [hdf]
    exact List.perm_insertionSort _ _
  have hlen_res : (rankedResults index meta rows target W).length = meta.length := by
    rw [hres_perm.length_eq, metaWithRowId_length]
  have hsnd : ((rankedResults index meta rows target W).map Prod.snd).Perm meta := by
    have hmap := hres_perm.map Prod.snd
    rw [metaWithRowId_map_snd] at hmap
    exact hmap
  have hretlen : (returnsStats index meta rows target W).length = meta.length := by
    unfold returnsStats
    rw [List.length_map, hlen_res]
  have hcountP : (returnsStats index meta rows target W).countP (fun r => decide (0 < r)) =
      (meta.filter (fun m => decide (0 < m.ret))).length := by
    unfold returnsStats
    rw [List.countP_map]
    have hfun : ∀ p ∈ rankedResults index meta rows target W,
        ((fun r : ℚ => decide (0 < r)) ∘ fun p : ℤ × MetaRow => p.2.ret * 100) p = true ↔
          (fun p : ℤ × MetaRow => decide (0 < p.2.ret)) p = true := by
      intro p _
      simp only [Function.comp_apply, decide_eq_true_iff]
      constructor <;> intro hh <;> nlinarith
    rw [List.countP_congr hfun, hres_perm.countP_eq]
    unfold metaWithRowId
    rw [List.countP_map, ← List.countP_eq_length_filter]
    conv_rhs => rw [← List.enum_map_snd meta, List.countP_map]
    rfl
  have hsum : (returnsStats index meta rows target W).sum =
      (meta.map MetaRow.ret).sum * 100 := by
    unfold returnsStats
    rw [(hres_perm.map (fun p : ℤ × MetaRow => p.2.ret * 100)).sum_eq]
    unfold metaWithRowId
    rw [List.map_map]
    have hcomp : ((fun p : ℤ × MetaRow => p.2.ret * 100) ∘
        fun p : ℕ × MetaRow => ((p.1 : ℤ), p.2)) =
        ((fun m : MetaRow => m.ret * 100) ∘ Prod.snd) := rfl
    rw [hcomp, ← List.map_map, List.enum_map_snd]
    exact List.sum_map_mul_right meta MetaRow.ret 100
  refine ⟨?_, hlen_res, hsnd⟩
  rw [searchPattern_ok_eval index meta rows target W htail (by rw [hretlen]; omega)]
  congr 1
  · rw [← List.countP_eq_length_filter, hcountP, hretlen]
  · rw [hsum, hretlen]

theorem spec_c8_witness :
    searchPattern (some (FaissIndex.mk 1 [[(1 : ℝ)], [2], [3]]))
        (some [MetaRow.mk "m0" 0 1, MetaRow.mk "m1" 1 (-1), MetaRow.mk "m2" 2 2])
        (some [Row.mk "T" 0 5]) "T" 1 =
      QueryOutcome.ok
        (rankedResults (FaissIndex.mk 1 [[(1 : ℝ)], [2], [3]])
          [MetaRow.mk "m0" 0 1, MetaRow.mk "m1" 1 (-1), MetaRow.mk "m2" 2 2]
          [Row.mk "T" 0 5] "T" 1)
        (((([MetaRow.mk "m0" 0 1, MetaRow.mk "m1" 1 (-1), MetaRow.mk "m2" 2 2].filter
              (fun m => decide (0 < m.ret))).length : ℚ) /
            (([MetaRow.mk "m0" 0 1, MetaRow.mk "m1" 1 (-1),
              MetaRow.mk "m2" 2 2].length : ℚ))) * 100)
        ((([MetaRow.mk "m0" 0 1, MetaRow.mk "m1" 1 (-1), MetaRow.mk "m2" 2 2].map
              MetaRow.ret).sum * 100) /
          (([MetaRow.mk "m0" 0 1, MetaRow.mk "m1" 1 (-1), MetaRow.mk "m2" 2 2].length : ℚ)))
    ∧ (rankedResults (FaissIndex.mk 1 [[(1 : ℝ)], [2], [3]])
        [MetaRow.mk "m0" 0 1, MetaRow.mk "m1" 1 (-1), MetaRow.mk "m2" 2 2]
        [Row.mk "T" 0 5] "T" 1).length =
      [MetaRow.mk "m0" 0 1, MetaRow.mk "m1" 1 (-1), MetaRow.mk "m2" 2 2].length
    ∧ ((rankedResults (FaissIndex.mk 1 [[(1 : ℝ)], [2], [3]])
        [MetaRow.mk "m0" 0 1, MetaRow.mk "m1" 1 (-1), MetaRow.mk "m2" 2 2]
        [Row.mk "T" 0 5] "T" 1).map Prod.snd).Perm
      [MetaRow.mk "m0" 0 1, MetaRow.mk "m1" 1 (-1), MetaRow.mk "m2" 2 2] :=
  spec_c8 (FaissIndex.mk 1 [[(1 : ℝ)], [2], [3]])
    [MetaRow.mk "m0" 0 1, MetaRow.mk "m1" 1 (-1), MetaRow.mk "m2" 2 2]
    [Row.mk "T" 0 5] "T" 1 (by decide) (by decide) (by decide) (by decide)
